import Mathlib

/-!
Shallow embedding of `src/model/gin.py` (Graph Isomorphism Network).

Tensors are embedded as lists of rational numbers: a feature vector is a
`List ℚ`, a per-node feature matrix is a `List Vec` (one row per node), and a
batched-graph feature tensor is a `List (List Vec)` (one block per graph of a
DGL batched graph; DGL batches graphs as a disjoint union, so per-node and
per-graph operations act blockwise and the block representation is
equivalent).

Randomly initialised parameters (`nn.Linear` weights, batch-norm statistics)
are supplied by an oracle indexed by the creation site (a path of natural
numbers), mirroring the fact that every `nn.Linear(...)` call draws fresh
parameters.  Batch normalisation is embedded in evaluation mode as the
per-feature affine map it denotes there (`scale = γ/√(var+ε)` folded into one
coefficient), and dropout in evaluation mode is the identity.  Fallible code
(a raised `ValueError` / `NotImplementedError`, an out-of-bounds list index)
is embedded with `Except` / `Option`.
-/

namespace VGADC

/-- A feature vector: one rational per feature. -/
abbrev Vec := List ℚ

/-- A weight matrix: a list of rows. -/
abbrev Mat := List (List ℚ)

/-- Dot product of two vectors. -/
def dot (a b : Vec) : ℚ := (List.zipWith (fun x y => x * y) a b).sum

/-- Elementwise sum of two vectors. -/
def vecAdd (a b : Vec) : Vec := List.zipWith (fun x y => x + y) a b

/-- Elementwise maximum of two vectors. -/
def vecMax (a b : Vec) : Vec := List.zipWith max a b

/-- Scale every entry of a vector. -/
def vecScale (c : ℚ) (v : Vec) : Vec := v.map (fun x => c * x)

/-- The zero vector of a given width. -/
def vecZero (d : ℕ) : Vec := List.replicate d 0

/-- `torch.nn.functional.relu`, elementwise on a vector. -/
def reluVec (v : Vec) : Vec := v.map (fun x => max x 0)

/-- Elementwise sum of two matrices (PyTorch `+` on equal-shaped tensors). -/
def matAdd (a b : List Vec) : List Vec := List.zipWith vecAdd a b

/-- Map an `Except`-valued function over a list, stopping at the first error
(the semantics of a Python loop whose body may raise). -/
def exList {ε α β : Type} (f : α → Except ε β) : List α → Except ε (List β)
  | [] => Except.ok []
  | a :: as =>
    match f a with
    | Except.error e => Except.error e
    | Except.ok b =>
      match exList f as with
      | Except.error e => Except.error e
      | Except.ok bs => Except.ok (b :: bs)

/-- Map an `Option`-valued function over a list, stopping at the first
failure (the semantics of a Python loop whose body may raise). -/
def optList {α β : Type} (f : α → Option β) : List α → Option (List β)
  | [] => some []
  | a :: as =>
    match f a with
    | none => none
    | some b =>
      match optList f as with
      | none => none
      | some bs => some (b :: bs)

/-- `torch.nn.Linear(in_features, out_features)`: an affine map given by a
weight matrix (one row per output feature) and a bias vector. -/
structure Linear where
  in_features : ℕ
  out_features : ℕ
  weight : Mat
  bias : Vec
  deriving DecidableEq, Repr

/-- `nn.Linear.forward`: `y = W x + b`, one dot product per output row. -/
def Linear.forward (l : Linear) (x : Vec) : Vec :=
  List.zipWith (fun x y => x + y) (l.weight.map (fun row => dot row x)) l.bias

/-- A linear layer has the shapes its constructor arguments declare. -/
def Linear.wf (l : Linear) : Prop :=
  l.weight.length = l.out_features ∧
    (∀ r ∈ l.weight, r.length = l.in_features) ∧
    l.bias.length = l.out_features

/-- Oracle supplying the randomly initialised `(weight, bias)` of each
`nn.Linear(a, b)` call, keyed by the creation site and the dimensions. -/
abbrev LinInit := List ℕ → ℕ → ℕ → Mat × Vec

/-- The oracle always returns tensors of the declared shapes (as PyTorch
initialisation does). -/
def LinInit.wf (θ : LinInit) : Prop :=
  ∀ p a b, (θ p a b).1.length = b ∧
    (∀ r ∈ (θ p a b).1, r.length = a) ∧ (θ p a b).2.length = b

/-- Embed one `nn.Linear(a, b)` creation at site `p`. -/
def mkLinear (θ : LinInit) (p : List ℕ) (a b : ℕ) : Linear :=
  { in_features := a, out_features := b,
    weight := (θ p a b).1, bias := (θ p a b).2 }

/-- `torch.nn.BatchNorm1d(num_features)` in evaluation mode: the per-feature
affine map `x ↦ scale * x + shift` it denotes once the learned statistics are
folded in. -/
structure BatchNorm1d where
  num_features : ℕ
  scale : Vec
  shift : Vec
  deriving DecidableEq, Repr

/-- Evaluation-mode batch normalisation of one feature row. -/
def BatchNorm1d.forward (bn : BatchNorm1d) (x : Vec) : Vec :=
  List.zipWith (fun x y => x + y)
    (List.zipWith (fun x y => x * y) bn.scale x) bn.shift

/-- A batch-norm layer has the width its constructor argument declares. -/
def BatchNorm1d.wf (bn : BatchNorm1d) : Prop :=
  bn.scale.length = bn.num_features ∧ bn.shift.length = bn.num_features

/-- Oracle supplying the `(scale, shift)` coefficients of each
`nn.BatchNorm1d(d)` call, keyed by the creation site and the width. -/
abbrev BNInit := List ℕ → ℕ → Vec × Vec

/-- The oracle always returns vectors of the declared width. -/
def BNInit.wf (β : BNInit) : Prop :=
  ∀ p d, (β p d).1.length = d ∧ (β p d).2.length = d

/-- Embed one `nn.BatchNorm1d(d)` creation at site `p`. -/
def mkBatchNorm (β : BNInit) (p : List ℕ) (d : ℕ) : BatchNorm1d :=
  { num_features := d, scale := (β p d).1, shift := (β p d).2 }

/-- `torch.nn.Dropout(p)`.  In evaluation mode dropout is the identity;
only the dropout probability is recorded. -/
structure Dropout where
  p : ℚ
  deriving DecidableEq, Repr

/-- Evaluation-mode dropout: the identity on a feature row. -/
def Dropout.forward (_d : Dropout) (x : Vec) : Vec := x

/-- The `MLP` module of `gin.py`.  In the `num_layers == 1` branch only
`self.linear` is set (`linear_or_not` stays `True`); in the multi-layer
branch `self.linear` is never set (embedded as `none`) and the layer stacks
`linears` / `batch_norms` are populated. -/
structure MLP where
  linear_or_not : Bool
  num_layers : ℤ
  output_dim : ℕ
  linear : Option Linear
  linears : List Linear
  batch_norms : List BatchNorm1d
  deriving DecidableEq, Repr

/-- `MLP.__init__`: reject a non-positive layer count, build a single linear
layer for `num_layers == 1`, and otherwise build `num_layers` linear layers
(`input_dim → hidden_dim`, then `hidden_dim → hidden_dim` repeated
`num_layers - 2` times, then `hidden_dim → output_dim`) together with
`num_layers - 1` batch norms of width `hidden_dim`. -/
def MLP.init (θ : LinInit) (β : BNInit) (p : List ℕ)
    (num_layers : ℤ) (input_dim hidden_dim output_dim : ℕ) :
    Except String MLP :=
  if num_layers < 1 then
    Except.error "number of layers should be positive!"
  else if num_layers = 1 then
    Except.ok
      { linear_or_not := true
        num_layers := num_layers
        output_dim := output_dim
        linear := some (mkLinear θ (p ++ [0]) input_dim output_dim)
        linears := []
        batch_norms := [] }
  else
    Except.ok
      { linear_or_not := false
        num_layers := num_layers
        output_dim := output_dim
        linear := none
        linears :=
          mkLinear θ (p ++ [0]) input_dim hidden_dim ::
            ((List.range (num_layers - 2).toNat).map
                (fun k => mkLinear θ (p ++ [k + 1]) hidden_dim hidden_dim) ++
              [mkLinear θ (p ++ [(num_layers - 1).toNat]) hidden_dim output_dim])
        batch_norms :=
          (List.range (num_layers - 1).toNat).map
            (fun k => mkBatchNorm β (p ++ [k]) hidden_dim) }

/-- The state of the hidden variable `h` after `i` iterations of the loop
`for i in range(self.num_layers - 1): h = relu(batch_norms[i](linears[i](h)))`
in `MLP.forward`; `none` embeds an out-of-bounds index error. -/
def MLP.hiddenChain (m : MLP) (x : Vec) : ℕ → Option Vec
  | 0 => some x
  | i + 1 =>
    match m.hiddenChain x i, m.linears.get? i, m.batch_norms.get? i with
    | some h, some lin, some bn => some (reluVec (bn.forward (lin.forward h)))
    | _, _, _ => none

/-- `MLP.forward`: the single linear layer in the linear branch, otherwise
the relu/batch-norm chain followed by the last linear layer
(`self.linears[-1]`). -/
def MLP.forward (m : MLP) (x : Vec) : Option Vec :=
  if m.linear_or_not then
    match m.linear with
    | some l => some (l.forward x)
    | none => none
  else
    match m.hiddenChain x (m.num_layers - 1).toNat, m.linears.getLast? with
    | some h, some lastL => some (lastL.forward h)
    | _, _ => none

/-- The `ApplyNodeFunc` module of `gin.py`: update a node feature with
MLP, batch norm and ReLU. -/
structure ApplyNodeFunc where
  mlp : MLP
  bn : BatchNorm1d
  deriving DecidableEq, Repr

/-- `ApplyNodeFunc.forward`: `relu(bn(mlp(h)))` on one node feature. -/
def ApplyNodeFunc.forward (f : ApplyNodeFunc) (h : Vec) : Option Vec :=
  match f.mlp.forward h with
  | some h1 => some (reluVec (f.bn.forward h1))
  | none => none

/-- The neighbor aggregator of DGL's `GINConv` (`sum`, `mean` or `max`). -/
inductive AggrType where
  | sum
  | mean
  | max
  deriving DecidableEq, Repr

/-- Modelled from the external DGL library: `GINConv.__init__` resolves its
`aggregator_type` string and raises for any string outside
`sum`/`mean`/`max`. -/
def AggrType.ofString (s : String) : Except String AggrType :=
  if s = "sum" then Except.ok AggrType.sum
  else if s = "mean" then Except.ok AggrType.mean
  else if s = "max" then Except.ok AggrType.max
  else Except.error ("Aggregator type " ++ s ++ " not recognized.")

/-- Aggregate the incoming messages of one node (all of width `d`); a node
with no incoming messages receives the zero vector of width `d`, as DGL's
built-in reducers fill nodes with no in-edges with zeros. -/
def aggregate (t : AggrType) (d : ℕ) (msgs : List Vec) : Vec :=
  match msgs with
  | [] => vecZero d
  | m :: ms =>
    match t with
    | AggrType.sum => ms.foldl vecAdd m
    | AggrType.mean => vecScale (((ms.length + 1 : ℕ) : ℚ)⁻¹) (ms.foldl vecAdd m)
    | AggrType.max => ms.foldl vecMax m

/-- One graph of a batch: a node count and per-node in-neighbor lists. -/
structure Graph where
  num_nodes : ℕ
  adj : List (List ℕ)
  deriving DecidableEq, Repr

/-- A graph is well formed when it has one neighbor list per node and every
neighbor is a node of the graph (DGL graphs satisfy this by construction). -/
def Graph.wf (g : Graph) : Prop :=
  g.adj.length = g.num_nodes ∧ ∀ ns ∈ g.adj, ∀ u ∈ ns, u < g.num_nodes

/-- A DGL batched graph: the list of its member graphs (DGL represents the
batch as their disjoint union). -/
abbrev BatchedGraph := List Graph

/-- Modelled from the external DGL library: a `GINConv` layer holds its
`apply_func`, the resolved aggregator, the epsilon value (initially
`init_eps`) and the `learn_eps` flag (which only controls whether epsilon is
a learnable parameter, not the computed value). -/
structure GINConv where
  apply_func : ApplyNodeFunc
  aggr : AggrType
  eps : ℚ
  learn_eps : Bool
  deriving DecidableEq, Repr

/-- Modelled from the external DGL library: `GINConv(apply_func,
aggregator_type, init_eps, learn_eps)` validates the aggregator string at
construction time. -/
def GINConv.init (apply_func : ApplyNodeFunc) (aggregator_type : String)
    (init_eps : ℚ) (learn_eps : Bool) : Except String GINConv :=
  match AggrType.ofString aggregator_type with
  | Except.error e => Except.error e
  | Except.ok t =>
    Except.ok { apply_func := apply_func, aggr := t,
                eps := init_eps, learn_eps := learn_eps }

/-- Modelled from the external DGL library: `GINConv.forward` on one member
graph computes, for every node `v`,
`apply_func((1 + eps) * h_v + aggregate {h_u : u an in-neighbor of v})`. -/
def GINConv.forwardGraph (c : GINConv) (gr : Graph) (h : List Vec) :
    Option (List Vec) :=
  optList
    (fun v =>
      c.apply_func.forward
        (vecAdd (vecScale (1 + c.eps) (h.getD v []))
          (aggregate c.aggr (h.getD v []).length
            ((gr.adj.getD v []).map (fun u => h.getD u [])))))
    (List.range gr.num_nodes)

/-- `GINConv.forward` on a batched graph acts blockwise on the member
graphs (a DGL batched graph is their disjoint union). -/
def GINConv.forward (c : GINConv) (g : BatchedGraph) (h : List (List Vec)) :
    Option (List (List Vec)) :=
  optList (fun p => c.forwardGraph p.1 p.2) (List.zip g h)

/-- The graph readout module selected in `GIN.__init__`: DGL's
`SumPooling`, `AvgPooling` or `MaxPooling`. -/
inductive Pooling where
  | SumPooling
  | AvgPooling
  | MaxPooling
  deriving DecidableEq, Repr

/-- Modelled from the external DGL library: readout of one member graph
(the elementwise sum, mean or maximum over its node features). -/
def Pooling.readout (p : Pooling) (h : List Vec) : Vec :=
  match h with
  | [] => []
  | v :: vs =>
    match p with
    | Pooling.SumPooling => vs.foldl vecAdd v
    | Pooling.AvgPooling => vecScale (((vs.length + 1 : ℕ) : ℚ)⁻¹) (vs.foldl vecAdd v)
    | Pooling.MaxPooling => vs.foldl vecMax v

/-- Pooling a batched graph: one readout vector per member graph. -/
def Pooling.forward (p : Pooling) (_g : BatchedGraph)
    (h : List (List Vec)) : List Vec :=
  h.map p.readout

/-- `GIN.__init__`: resolve the `graph_pooling_type` string, raising
`NotImplementedError` for an unrecognised value. -/
def selectPool (s : String) : Except String Pooling :=
  if s = "sum" then Except.ok Pooling.SumPooling
  else if s = "mean" then Except.ok Pooling.AvgPooling
  else if s = "max" then Except.ok Pooling.MaxPooling
  else Except.error "NotImplementedError"

/-- The `GIN` module of `gin.py`. -/
structure GIN where
  num_layers : ℤ
  learn_eps : Bool
  ginlayers : List GINConv
  batch_norms : List BatchNorm1d
  linears_prediction : List Linear
  drop : Dropout
  pool : Pooling
  deriving DecidableEq, Repr

/-- One iteration of the first loop of `GIN.__init__`: build the layer MLP
(`input_dim → hidden_dim` for layer 0, `hidden_dim → hidden_dim` after), wrap
it in `ApplyNodeFunc` (whose batch norm has width `mlp.output_dim`), build
the `GINConv` with `init_eps = 0`, and the layer batch norm of width
`hidden_dim`.  Creation sites `[0, layer]`, `[1, layer]`, `[2, layer]` key
the parameter oracles. -/
def ginLayerBuild (θ : LinInit) (β : BNInit) (num_mlp_layers : ℤ)
    (input_dim hidden_dim : ℕ) (neighbor_pooling_type : String)
    (learn_eps : Bool) (layer : ℕ) :
    Except String (GINConv × BatchNorm1d) :=
  match
    (if layer = 0 then
      MLP.init θ β [0, layer] num_mlp_layers input_dim hidden_dim hidden_dim
    else
      MLP.init θ β [0, layer] num_mlp_layers hidden_dim hidden_dim hidden_dim)
  with
  | Except.error e => Except.error e
  | Except.ok mlp =>
    match
      GINConv.init
        { mlp := mlp, bn := mkBatchNorm β [1, layer] mlp.output_dim }
        neighbor_pooling_type 0 learn_eps
    with
    | Except.error e => Except.error e
    | Except.ok conv => Except.ok (conv, mkBatchNorm β [2, layer] hidden_dim)

/-- The second loop of `GIN.__init__`: one prediction head per layer,
`input_dim → output_dim` for layer 0 and `hidden_dim → output_dim` for the
rest, at creation sites `[3, layer]`. -/
def predsBuild (θ : LinInit) (num_layers : ℤ)
    (input_dim hidden_dim output_dim : ℕ) : List Linear :=
  (List.range num_layers.toNat).map
    (fun layer =>
      if layer = 0 then mkLinear θ [3, layer] input_dim output_dim
      else mkLinear θ [3, layer] hidden_dim output_dim)

/-- `GIN.__init__`: build `num_layers - 1` GIN convolution layers with their
batch norms (raising inside the loop like the Python constructor), then the
`num_layers` prediction heads, the dropout module, and finally resolve the
graph pooling string. -/
def GIN.init (θ : LinInit) (β : BNInit) (num_layers num_mlp_layers : ℤ)
    (input_dim hidden_dim output_dim : ℕ) (final_dropout : ℚ)
    (learn_eps : Bool) (graph_pooling_type neighbor_pooling_type : String) :
    Except String GIN :=
  match
    exList
      (ginLayerBuild θ β num_mlp_layers input_dim hidden_dim
        neighbor_pooling_type learn_eps)
      (List.range (num_layers - 1).toNat)
  with
  | Except.error e => Except.error e
  | Except.ok layers =>
    match selectPool graph_pooling_type with
    | Except.error e => Except.error e
    | Except.ok pl =>
      Except.ok
        { num_layers := num_layers
          learn_eps := learn_eps
          ginlayers := layers.map Prod.fst
          batch_norms := layers.map Prod.snd
          linears_prediction :=
            predsBuild θ num_layers input_dim hidden_dim output_dim
          drop := { p := final_dropout }
          pool := pl }

/-- State of `GIN.forward` after `i` iterations of its first loop: the
`hidden_rep` list accumulated so far together with the current `h`
(`h = relu(batch_norms[i](ginlayers[i](g, h)))` each iteration, appended to
`hidden_rep`); `none` embeds a raised error. -/
def GIN.hiddenLoop (m : GIN) (g : BatchedGraph) (h0 : List (List Vec)) :
    ℕ → Option (List (List (List Vec)) × List (List Vec))
  | 0 => some ([h0], h0)
  | i + 1 =>
    match m.hiddenLoop g h0 i, m.ginlayers.get? i, m.batch_norms.get? i with
    | some (rep, hcur), some conv, some bn =>
      match conv.forward g hcur with
      | some hconv =>
        let hnew :=
          hconv.map (fun gf => gf.map (fun v => reluVec (bn.forward v)))
        some (rep ++ [hnew], hnew)
      | none => none
    | _, _, _ => none

/-- Sum of the per-layer score tensors.  Python initialises
`score_over_layer = 0` and adds tensors to it, so the first tensor is taken
as is; the empty case never occurs because `hidden_rep` contains at least
the input features. -/
def sumScores : List (List Vec) → List Vec
  | [] => []
  | t :: ts => ts.foldl matAdd t

/-- `GIN.forward`: run the convolution loop collecting `hidden_rep`, then
for every layer `i` pool `hidden_rep[i]` over each graph, apply
`linears_prediction[i]` row-wise and dropout, and sum the per-layer scores. -/
def GIN.forward (m : GIN) (g : BatchedGraph) (h : List (List Vec)) :
    Option (List Vec) :=
  match m.hiddenLoop g h (m.num_layers - 1).toNat with
  | none => none
  | some (hidden_rep, _) =>
    match
      optList
        (fun i =>
          match hidden_rep.get? i, m.linears_prediction.get? i with
          | some hi, some lin =>
            some
              ((m.pool.forward g hi).map
                (fun pooled => m.drop.forward (lin.forward pooled)))
          | _, _ => none)
        (List.range hidden_rep.length)
    with
    | none => none
    | some terms => some (sumScores terms)

/-- A concrete linear-layer oracle: all-zero weights and biases (of the
declared shapes). -/
def thetaZero : LinInit :=
  fun _ a b => (List.replicate b (List.replicate a 0), List.replicate b 0)

/-- A concrete batch-norm oracle: the identity normalisation. -/
def betaId : BNInit :=
  fun _ d => (List.replicate d 1, List.replicate d 0)

/-- Sequential application of (linear, batch-norm) stages, each followed by
a ReLU — the loop body of the multi-layer branch of `MLP.forward`. -/
def chainApply : List (Linear × BatchNorm1d) → Vec → Vec
  | [], x => x
  | lb :: rest, x => chainApply rest (reluVec (lb.2.forward (lb.1.forward x)))

/-- The `j`-th layer representation of `GIN.forward` as a direct recursion:
layer 0 is the raw input features, and layer `j + 1` applies
`relu(batch_norms[j](ginlayers[j](g, ·)))` to layer `j`. -/
def GIN.hiddenRep (m : GIN) (g : BatchedGraph) (h0 : List (List Vec)) :
    ℕ → Option (List (List Vec))
  | 0 => some h0
  | j + 1 =>
    match m.hiddenRep g h0 j, m.ginlayers.get? j, m.batch_norms.get? j with
    | some hcur, some conv, some bn =>
      match conv.forward g hcur with
      | some hconv =>
        some (hconv.map (fun gf => gf.map (fun v => reluVec (bn.forward v))))
      | none => none
    | _, _, _ => none

/-! ### Helper lemmas about `exList` and `optList` -/

theorem exList_forall₂ {ε α β : Type} {f : α → Except ε β} :
    ∀ {l : List α} {bs : List β}, exList f l = Except.ok bs →
      List.Forall₂ (fun a b => f a = Except.ok b) l bs := by
  intro l
  induction l with
  | nil =>
    intro bs h
    simp only [exList, Except.ok.injEq] at h
    subst h
    exact List.Forall₂.nil
  | cons a as ih =>
    intro bs h
    cases hfa : f a with
    | error e => rw [exList, hfa] at h; exact absurd h (by simp)
    | ok b =>
      rw [exList, hfa] at h
      cases hrest : exList f as with
      | error e => rw [hrest] at h; exact absurd h (by simp)
      | ok bs2 =>
        rw [hrest] at h
        simp only [Except.ok.injEq] at h
        subst h
        exact List.Forall₂.cons hfa (ih hrest)

theorem exList_of_forall₂ {ε α β : Type} {f : α → Except ε β} :
    ∀ {l : List α} {bs : List β},
      List.Forall₂ (fun a b => f a = Except.ok b) l bs →
      exList f l = Except.ok bs := by
  intro l bs h
  induction h with
  | nil => rfl
  | cons hR _ ih => rw [exList, hR, ih]

theorem exList_ok_of_forall {ε α β : Type} {f : α → Except ε β}
    {l : List α} (h : ∀ a ∈ l, ∃ b, f a = Except.ok b) :
    ∃ bs, exList f l = Except.ok bs := by
  induction l with
  | nil => exact ⟨[], rfl⟩
  | cons a as ih =>
    obtain ⟨b, hb⟩ := h a (List.mem_cons_self a as)
    obtain ⟨bs, hbs⟩ := ih (fun x hx => h x (List.mem_cons_of_mem a hx))
    exact ⟨b :: bs, by rw [exList, hb, hbs]⟩

theorem optList_forall₂ {α β : Type} {f : α → Option β} :
    ∀ {l : List α} {bs : List β}, optList f l = some bs →
      List.Forall₂ (fun a b => f a = some b) l bs := by
  intro l
  induction l with
  | nil =>
    intro bs h
    simp only [optList, Option.some.injEq] at h
    subst h
    exact List.Forall₂.nil
  | cons a as ih =>
    intro bs h
    cases hfa : f a with
    | none => rw [optList, hfa] at h; exact absurd h (by simp)
    | some b =>
      rw [optList, hfa] at h
      cases hrest : optList f as with
      | none => rw [hrest] at h; exact absurd h (by simp)
      | some bs2 =>
        rw [hrest] at h
        simp only [Option.some.injEq] at h
        subst h
        exact List.Forall₂.cons hfa (ih hrest)

theorem optList_of_forall₂ {α β : Type} {f : α → Option β} :
    ∀ {l : List α} {bs : List β},
      List.Forall₂ (fun a b => f a = some b) l bs →
      optList f l = some bs := by
  intro l bs h
  induction h with
  | nil => rfl
  | cons hR _ ih => rw [optList, hR, ih]

theorem optList_some_of_forall {α β : Type} {f : α → Option β}
    {P : β → Prop} {l : List α}
    (h : ∀ a ∈ l, ∃ b, f a = some b ∧ P b) :
    ∃ bs, optList f l = some bs ∧ bs.length = l.length ∧ ∀ b ∈ bs, P b := by
  induction l with
  | nil => exact ⟨[], rfl, rfl, by simp⟩
  | cons a as ih =>
    obtain ⟨b, hb, hPb⟩ := h a (List.mem_cons_self a as)
    obtain ⟨bs, hbs, hlen, hP⟩ := ih (fun x hx => h x (List.mem_cons_of_mem a hx))
    refine ⟨b :: bs, by rw [optList, hb, hbs], by simp [hlen], ?_⟩
    intro x hx
    rcases List.mem_cons.mp hx with hx | hx
    · exact hx ▸ hPb
    · exact hP x hx

theorem forall₂_get? {α β : Type} {R : α → β → Prop} :
    ∀ {l1 : List α} {l2 : List β}, List.Forall₂ R l1 l2 →
      ∀ {i : ℕ} {a : α} {b : β},
        l1.get? i = some a → l2.get? i = some b → R a b := by
  intro l1 l2 h
  induction h with
  | nil => intro i a b h1 _; simp at h1
  | cons hR _ ih =>
    intro i a b h1 h2
    cases i with
    | zero =>
      simp only [List.get?_cons_zero, Option.some.injEq] at h1 h2
      subst h1; subst h2; exact hR
    | succ j =>
      simp only [List.get?_cons_succ] at h1 h2
      exact ih h1 h2

/-! ### Concrete parameter oracles for closed-form evaluations -/

theorem thetaZero_wf : LinInit.wf thetaZero := by
  intro p a b
  refine ⟨by simp [thetaZero], ?_, by simp [thetaZero]⟩
  intro r hr
  simp only [thetaZero, List.mem_replicate] at hr
  simp [hr.2]

theorem betaId_wf : BNInit.wf betaId := by
  intro p d
  exact ⟨by simp [betaId], by simp [betaId]⟩

/-! ### C10: a single-layer MLP ignores its hidden dimension -/

/-- C10: for `num_layers == 1` the MLP built by `MLP.__init__` does not
depend on the `hidden_dim` argument at all — the constructed models for any
two hidden dimensions are identical, and in particular `MLP.forward`
computes the same function. -/
theorem mlp_single_layer_ignores_hidden_dim (θ : LinInit) (β : BNInit)
    (p : List ℕ) (input_dim hd1 hd2 output_dim : ℕ) :
    MLP.init θ β p 1 input_dim hd1 output_dim
        = MLP.init θ β p 1 input_dim hd2 output_dim ∧
      ∀ m1 m2, MLP.init θ β p 1 input_dim hd1 output_dim = Except.ok m1 →
        MLP.init θ β p 1 input_dim hd2 output_dim = Except.ok m2 →
        ∀ x, m1.forward x = m2.forward x := by
  refine ⟨rfl, ?_⟩
  intro m1 m2 h1 h2 x
  have e : MLP.init θ β p 1 input_dim hd1 output_dim
      = MLP.init θ β p 1 input_dim hd2 output_dim := rfl
  rw [← e, h1] at h2
  injection h2 with h2
  rw [h2]

/-- Witness for C10 at a concrete instance: hidden dimensions 5 and 7, with
the single-layer construction evaluated and its forward pass compared at the
input `[1, 2]`. -/
theorem mlp_single_layer_ignores_hidden_dim_witness :
    ∃ m1 m2, MLP.init thetaZero betaId [] 1 2 5 3 = Except.ok m1 ∧
      MLP.init thetaZero betaId [] 1 2 7 3 = Except.ok m2 ∧
      m1.forward [1, 2] = m2.forward [1, 2] := by
  obtain ⟨m1, h1⟩ : ∃ m1, MLP.init thetaZero betaId [] 1 2 5 3 = Except.ok m1 :=
    ⟨_, rfl⟩
  obtain ⟨m2, h2⟩ : ∃ m2, MLP.init thetaZero betaId [] 1 2 7 3 = Except.ok m2 :=
    ⟨_, rfl⟩
  exact ⟨m1, m2, h1, h2,
    (mlp_single_layer_ignores_hidden_dim thetaZero betaId [] 2 5 7 3).2
      m1 m2 h1 h2 [1, 2]⟩

/-! ### Inversion lemmas for `MLP.init` -/

theorem mlp_init_error_of_nonpos {θ : LinInit} {β : BNInit} {p : List ℕ}
    {nl : ℤ} {i hd o : ℕ} (hnl : nl ≤ 0) :
    MLP.init θ β p nl i hd o
      = Except.error "number of layers should be positive!" := by
  unfold MLP.init
  rw [if_pos (by omega)]

theorem mlp_init_one_inv {θ : LinInit} {β : BNInit} {p : List ℕ}
    {i hd o : ℕ} {m : MLP} (hm : MLP.init θ β p 1 i hd o = Except.ok m) :
    m = { linear_or_not := true, num_layers := 1, output_dim := o,
          linear := some (mkLinear θ (p ++ [0]) i o),
          linears := [], batch_norms := [] } := by
  unfold MLP.init at hm
  rw [if_neg (by omega), if_pos rfl] at hm
  injection hm with hm
  exact hm.symm

theorem mlp_init_multi_inv {θ : LinInit} {β : BNInit} {p : List ℕ}
    {nl : ℤ} {i hd o : ℕ} {m : MLP} (hnl : 2 ≤ nl)
    (hm : MLP.init θ β p nl i hd o = Except.ok m) :
    m = { linear_or_not := false, num_layers := nl, output_dim := o,
          linear := none,
          linears :=
            mkLinear θ (p ++ [0]) i hd ::
              ((List.range (nl - 2).toNat).map
                  (fun k => mkLinear θ (p ++ [k + 1]) hd hd) ++
                [mkLinear θ (p ++ [(nl - 1).toNat]) hd o]),
          batch_norms :=
            (List.range (nl - 1).toNat).map
              (fun k => mkBatchNorm β (p ++ [k]) hd) } := by
  unfold MLP.init at hm
  rw [if_neg (by omega), if_neg (by omega)] at hm
  injection hm with hm
  exact hm.symm

theorem mlp_init_ok_of_pos (θ : LinInit) (β : BNInit) (p : List ℕ)
    (nl : ℤ) (i hd o : ℕ) (hnl : 1 ≤ nl) :
    ∃ m, MLP.init θ β p nl i hd o = Except.ok m := by
  unfold MLP.init
  rw [if_neg (by omega)]
  by_cases h1 : nl = 1
  · rw [if_pos h1]; exact ⟨_, rfl⟩
  · rw [if_neg h1]; exact ⟨_, rfl⟩

/-! ### C6: branch selection in the MLP constructor -/

/-- C6: `MLP.__init__` branches on the layer count.  With `num_layers == 1`
the model is a single linear transform (`linear_or_not` is `True`, `linear`
is the `input_dim → output_dim` layer, and `forward` returns exactly
`linear(x)`); with `num_layers >= 2` the multi-layer branch is taken
(`linear_or_not` is `False`). -/
theorem mlp_branch_selection (θ : LinInit) (β : BNInit) (p : List ℕ)
    (input_dim hidden_dim output_dim : ℕ) :
    (∀ m, MLP.init θ β p 1 input_dim hidden_dim output_dim = Except.ok m →
        m.linear_or_not = true ∧
        m.linear = some (mkLinear θ (p ++ [0]) input_dim output_dim) ∧
        (mkLinear θ (p ++ [0]) input_dim output_dim).in_features = input_dim ∧
        (mkLinear θ (p ++ [0]) input_dim output_dim).out_features = output_dim ∧
        ∀ x, m.forward x
            = some ((mkLinear θ (p ++ [0]) input_dim output_dim).forward x)) ∧
      ∀ nl m, 2 ≤ nl →
        MLP.init θ β p nl input_dim hidden_dim output_dim = Except.ok m →
        m.linear_or_not = false := by
  constructor
  · intro m hm
    have hinv := mlp_init_one_inv hm
    subst hinv
    exact ⟨rfl, rfl, rfl, rfl, fun x => rfl⟩
  · intro nl m hnl hm
    have hinv := mlp_init_multi_inv hnl hm
    subst hinv
    rfl

/-- Witness for C6 at a concrete instance: the constructions with
`num_layers` 1 and 3 (dimensions 2 → 4 → 3) are evaluated and the branch
facts extracted. -/
theorem mlp_branch_selection_witness :
    ∃ m1 m3, MLP.init thetaZero betaId [] 1 2 4 3 = Except.ok m1 ∧
      MLP.init thetaZero betaId [] 3 2 4 3 = Except.ok m3 ∧
      m1.linear_or_not = true ∧
      (∀ x, m1.forward x
          = some ((mkLinear thetaZero ([] ++ [0]) 2 3).forward x)) ∧
      m3.linear_or_not = false := by
  obtain ⟨m1, h1⟩ : ∃ m1, MLP.init thetaZero betaId [] 1 2 4 3 = Except.ok m1 :=
    ⟨_, rfl⟩
  obtain ⟨m3, h3⟩ : ∃ m3, MLP.init thetaZero betaId [] 3 2 4 3 = Except.ok m3 :=
    ⟨_, rfl⟩
  obtain ⟨hlin, _, _, _, hfwd⟩ :=
    (mlp_branch_selection thetaZero betaId [] 2 4 3).1 m1 h1
  exact ⟨m1, m3, h1, h3, hlin, hfwd,
    (mlp_branch_selection thetaZero betaId [] 2 4 3).2 3 m3 (by omega) h3⟩

/-! ### Inversion and construction lemmas for `GIN.init` -/

theorem gin_init_ok_inv {θ : LinInit} {β : BNInit} {NL NML : ℤ}
    {i hd o : ℕ} {fd : ℚ} {le : Bool} {gp np : String} {m : GIN}
    (hm : GIN.init θ β NL NML i hd o fd le gp np = Except.ok m) :
    ∃ layers pl,
      exList (ginLayerBuild θ β NML i hd np le) (List.range (NL - 1).toNat)
          = Except.ok layers ∧
        selectPool gp = Except.ok pl ∧
        m = { num_layers := NL, learn_eps := le,
              ginlayers := layers.map Prod.fst,
              batch_norms := layers.map Prod.snd,
              linears_prediction := predsBuild θ NL i hd o,
              drop := { p := fd }, pool := pl } := by
  unfold GIN.init at hm
  cases hE : exList (ginLayerBuild θ β NML i hd np le)
      (List.range (NL - 1).toNat) with
  | error e => rw [hE] at hm; exact absurd hm (by simp)
  | ok layers =>
    rw [hE] at hm
    cases hP : selectPool gp with
    | error e => rw [hP] at hm; exact absurd hm (by simp)
    | ok pl =>
      rw [hP] at hm
      injection hm with hm
      exact ⟨layers, pl, rfl, rfl, hm.symm⟩

theorem exList_error_head {ε α β : Type} {f : α → Except ε β} {a : α}
    {as : List α} {e : ε} (h : f a = Except.error e) :
    exList f (a :: as) = Except.error e := by
  rw [exList, h]

theorem selectPool_ok {gp : String}
    (h : gp = "sum" ∨ gp = "mean" ∨ gp = "max") :
    ∃ pl, selectPool gp = Except.ok pl := by
  rcases h with h | h | h <;> subst h
  · exact ⟨_, rfl⟩
  · exact ⟨Pooling.AvgPooling, by simp [selectPool]⟩
  · exact ⟨Pooling.MaxPooling, by simp [selectPool]⟩

theorem selectPool_error {gp : String}
    (h1 : gp ≠ "sum") (h2 : gp ≠ "mean") (h3 : gp ≠ "max") :
    selectPool gp = Except.error "NotImplementedError" := by
  simp [selectPool, h1, h2, h3]

theorem aggr_ofString_ok {np : String}
    (h : np = "sum" ∨ np = "mean" ∨ np = "max") :
    ∃ t, AggrType.ofString np = Except.ok t := by
  rcases h with h | h | h <;> subst h
  · exact ⟨_, rfl⟩
  · exact ⟨AggrType.mean, by simp [AggrType.ofString]⟩
  · exact ⟨AggrType.max, by simp [AggrType.ofString]⟩

theorem aggr_ofString_error {np : String}
    (h1 : np ≠ "sum") (h2 : np ≠ "mean") (h3 : np ≠ "max") :
    AggrType.ofString np
      = Except.error ("Aggregator type " ++ np ++ " not recognized.") := by
  simp [AggrType.ofString, h1, h2, h3]

theorem ginLayerBuild_error_of_nonpos {θ : LinInit} {β : BNInit} {NML : ℤ}
    {i hd : ℕ} {np : String} {le : Bool} {layer : ℕ} (h : NML ≤ 0) :
    ginLayerBuild θ β NML i hd np le layer
      = Except.error "number of layers should be positive!" := by
  unfold ginLayerBuild
  by_cases h0 : layer = 0
  · rw [if_pos h0, mlp_init_error_of_nonpos h]
  · rw [if_neg h0, mlp_init_error_of_nonpos h]

theorem ginLayerBuild_ok {θ : LinInit} {β : BNInit} {NML : ℤ}
    {i hd : ℕ} {np : String} {le : Bool} {layer : ℕ} (hnml : 1 ≤ NML)
    (hnp : np = "sum" ∨ np = "mean" ∨ np = "max") :
    ∃ lb, ginLayerBuild θ β NML i hd np le layer = Except.ok lb := by
  obtain ⟨t, ht⟩ := aggr_ofString_ok hnp
  unfold ginLayerBuild
  by_cases h0 : layer = 0
  · rw [if_pos h0]
    obtain ⟨mlp, hmlp⟩ := mlp_init_ok_of_pos θ β [0, layer] NML i hd hd hnml
    rw [hmlp]
    unfold GINConv.init
    rw [ht]
    exact ⟨_, rfl⟩
  · rw [if_neg h0]
    obtain ⟨mlp, hmlp⟩ := mlp_init_ok_of_pos θ β [0, layer] NML hd hd hd hnml
    rw [hmlp]
    unfold GINConv.init
    rw [ht]
    exact ⟨_, rfl⟩

theorem ginLayerBuild_error_of_bad_np (θ : LinInit) (β : BNInit) (NML : ℤ)
    (i hd : ℕ) (np : String) (le : Bool) (layer : ℕ)
    (h1 : np ≠ "sum") (h2 : np ≠ "mean") (h3 : np ≠ "max") :
    ∃ e, ginLayerBuild θ β NML i hd np le layer = Except.error e := by
  unfold ginLayerBuild
  by_cases h0 : layer = 0
  · rw [if_pos h0]
    cases hmlp : MLP.init θ β [0, layer] NML i hd hd with
    | error e => exact ⟨e, rfl⟩
    | ok mlp =>
      refine ⟨"Aggregator type " ++ np ++ " not recognized.", ?_⟩
      dsimp only
      unfold GINConv.init
      rw [aggr_ofString_error h1 h2 h3]
  · rw [if_neg h0]
    cases hmlp : MLP.init θ β [0, layer] NML hd hd hd with
    | error e => exact ⟨e, rfl⟩
    | ok mlp =>
      refine ⟨"Aggregator type " ++ np ++ " not recognized.", ?_⟩
      dsimp only
      unfold GINConv.init
      rw [aggr_ofString_error h1 h2 h3]

theorem gin_init_ok_of_le_one {θ : LinInit} {β : BNInit} {NL NML : ℤ}
    {i hd o : ℕ} {fd : ℚ} {le : Bool} {gp np : String} (h1 : NL ≤ 1)
    (hgp : gp = "sum" ∨ gp = "mean" ∨ gp = "max") :
    ∃ m, GIN.init θ β NL NML i hd o fd le gp np = Except.ok m := by
  have hr : (NL - 1).toNat = 0 := by omega
  obtain ⟨pl, hP⟩ := selectPool_ok hgp
  unfold GIN.init
  rw [hr]
  have h0 : exList (ginLayerBuild θ β NML i hd np le) (List.range 0)
      = Except.ok [] := rfl
  rw [h0, hP]
  exact ⟨_, rfl⟩

theorem gin_init_ok_full {θ : LinInit} {β : BNInit} {NL NML : ℤ}
    {i hd o : ℕ} {fd : ℚ} {le : Bool} {gp np : String} (hnml : 1 ≤ NML)
    (hgp : gp = "sum" ∨ gp = "mean" ∨ gp = "max")
    (hnp : np = "sum" ∨ np = "mean" ∨ np = "max") :
    ∃ m, GIN.init θ β NL NML i hd o fd le gp np = Except.ok m := by
  obtain ⟨layers, hL⟩ := exList_ok_of_forall
    (f := ginLayerBuild θ β NML i hd np le)
    (l := List.range (NL - 1).toNat)
    (fun a _ => ginLayerBuild_ok hnml hnp)
  obtain ⟨pl, hP⟩ := selectPool_ok hgp
  unfold GIN.init
  rw [hL, hP]
  exact ⟨_, rfl⟩

/-! ### C4: graph-pooling selection -/

/-- C4: `GIN.__init__` selects `SumPooling`, `AvgPooling` or `MaxPooling`
for `graph_pooling_type` equal to `sum`, `mean` or `max` respectively, and
raises for every other value of `graph_pooling_type` (whatever else the
construction does, it never returns a model). -/
theorem gin_graph_pooling_selection (θ : LinInit) (β : BNInit)
    (NL NML : ℤ) (i hd o : ℕ) (fd : ℚ) (le : Bool) (np : String) :
    (∀ m, GIN.init θ β NL NML i hd o fd le "sum" np = Except.ok m →
        m.pool = Pooling.SumPooling) ∧
    (∀ m, GIN.init θ β NL NML i hd o fd le "mean" np = Except.ok m →
        m.pool = Pooling.AvgPooling) ∧
    (∀ m, GIN.init θ β NL NML i hd o fd le "max" np = Except.ok m →
        m.pool = Pooling.MaxPooling) ∧
    ∀ gp, gp ≠ "sum" → gp ≠ "mean" → gp ≠ "max" →
      ∀ m, GIN.init θ β NL NML i hd o fd le gp np ≠ Except.ok m := by
  refine ⟨?_, ?_, ?_, ?_⟩
  · intro m hm
    obtain ⟨layers, pl, _, hP, hmodel⟩ := gin_init_ok_inv hm
    have : pl = Pooling.SumPooling := by
      have h : selectPool "sum" = Except.ok Pooling.SumPooling := rfl
      rw [h] at hP; injection hP with hP; exact hP.symm
    subst this; subst hmodel; rfl
  · intro m hm
    obtain ⟨layers, pl, _, hP, hmodel⟩ := gin_init_ok_inv hm
    have : pl = Pooling.AvgPooling := by
      have h : selectPool "mean" = Except.ok Pooling.AvgPooling := by
        simp [selectPool]
      rw [h] at hP; injection hP with hP; exact hP.symm
    subst this; subst hmodel; rfl
  · intro m hm
    obtain ⟨layers, pl, _, hP, hmodel⟩ := gin_init_ok_inv hm
    have : pl = Pooling.MaxPooling := by
      have h : selectPool "max" = Except.ok Pooling.MaxPooling := by
        simp [selectPool]
      rw [h] at hP; injection hP with hP; exact hP.symm
    subst this; subst hmodel; rfl
  · intro gp h1 h2 h3 m hm
    obtain ⟨layers, pl, _, hP, _⟩ := gin_init_ok_inv hm
    rw [selectPool_error h1 h2 h3] at hP
    exact absurd hP (by simp)

/-- Witness for C4 at concrete instances: the three valid pooling strings
select the three pooling modules, and the string `avg` is rejected. -/
theorem gin_graph_pooling_selection_witness :
    ∃ ms mm mx,
      GIN.init thetaZero betaId 1 1 1 1 1 0 false "sum" "sum"
          = Except.ok ms ∧ ms.pool = Pooling.SumPooling ∧
        GIN.init thetaZero betaId 1 1 1 1 1 0 false "mean" "sum"
          = Except.ok mm ∧ mm.pool = Pooling.AvgPooling ∧
        GIN.init thetaZero betaId 1 1 1 1 1 0 false "max" "sum"
          = Except.ok mx ∧ mx.pool = Pooling.MaxPooling ∧
        ∀ m, GIN.init thetaZero betaId 1 1 1 1 1 0 false "avg" "sum"
          ≠ Except.ok m := by
  obtain ⟨ms, hs⟩ : ∃ m, GIN.init thetaZero betaId 1 1 1 1 1 0 false
      "sum" "sum" = Except.ok m := ⟨_, rfl⟩
  obtain ⟨mm, hme⟩ : ∃ m, GIN.init thetaZero betaId 1 1 1 1 1 0 false
      "mean" "sum" = Except.ok m := gin_init_ok_of_le_one (by omega)
    (Or.inr (Or.inl rfl))
  obtain ⟨mx, hmx⟩ : ∃ m, GIN.init thetaZero betaId 1 1 1 1 1 0 false
      "max" "sum" = Except.ok m := gin_init_ok_of_le_one (by omega)
    (Or.inr (Or.inr rfl))
  obtain ⟨c1, c2, c3, c4⟩ :=
    gin_graph_pooling_selection thetaZero betaId 1 1 1 1 1 0 false "sum"
  exact ⟨ms, mm, mx, hs, c1 ms hs, hme, c2 mm hme, hmx, c3 mx hmx,
    c4 "avg" (by decide) (by decide) (by decide)⟩

/-! ### C3 (corrected): which layer counts are actually validated -/

/-- Counterexample to C3 as stated: a GIN with the non-positive layer count
`num_layers = 0` (and positive `num_mlp_layers = 3`) constructs successfully
— `GIN.__init__` never validates its own `num_layers`. -/
theorem gin_init_accepts_nonpositive_num_layers :
    ∃ m, GIN.init thetaZero betaId 0 3 1 1 1 0 false "sum" "sum"
      = Except.ok m :=
  ⟨_, rfl⟩

/-- C3 amended: `MLP.__init__` rejects a non-positive `num_layers` and
succeeds exactly when it is positive; `GIN.__init__` propagates that error
for a non-positive `num_mlp_layers` only when its `num_layers >= 2` (so
that the MLP constructor actually runs), and never validates its own
`num_layers`: for `num_layers <= 1` construction succeeds for any
`num_mlp_layers` whenever the graph-pooling string is valid, and for
`num_layers >= 2` it succeeds whenever `num_mlp_layers` is positive and
both pooling strings are valid. -/
theorem layer_count_validation_amended (θ : LinInit) (β : BNInit)
    (p : List ℕ) (nl NL NML : ℤ) (i hd o : ℕ) (fd : ℚ) (le : Bool)
    (gp np : String) :
    (nl ≤ 0 → ∃ e, MLP.init θ β p nl i hd o = Except.error e) ∧
    (1 ≤ nl → ∃ m, MLP.init θ β p nl i hd o = Except.ok m) ∧
    (2 ≤ NL → NML ≤ 0 →
      ∃ e, GIN.init θ β NL NML i hd o fd le gp np = Except.error e) ∧
    (NL ≤ 1 → (gp = "sum" ∨ gp = "mean" ∨ gp = "max") →
      ∃ m, GIN.init θ β NL NML i hd o fd le gp np = Except.ok m) ∧
    (2 ≤ NL → 1 ≤ NML → (gp = "sum" ∨ gp = "mean" ∨ gp = "max") →
      (np = "sum" ∨ np = "mean" ∨ np = "max") →
      ∃ m, GIN.init θ β NL NML i hd o fd le gp np = Except.ok m) := by
  refine ⟨?_, ?_, ?_, ?_, ?_⟩
  · intro h
    exact ⟨_, mlp_init_error_of_nonpos h⟩
  · intro h
    exact mlp_init_ok_of_pos θ β p nl i hd o h
  · intro hNL hNML
    obtain ⟨n, hn⟩ : ∃ n, (NL - 1).toNat = n + 1 := ⟨(NL - 2).toNat, by omega⟩
    refine ⟨"number of layers should be positive!", ?_⟩
    unfold GIN.init
    rw [hn, List.range_succ_eq_map,
      exList_error_head (ginLayerBuild_error_of_nonpos hNML)]
  · intro hNL hgp
    exact gin_init_ok_of_le_one hNL hgp
  · intro _ hNML hgp hnp
    exact gin_init_ok_full hNML hgp hnp

/-- Witness for the amended C3 at concrete instances: an MLP with layer
count `-1` is rejected and one with `2` accepted; a GIN with
`num_layers = 3, num_mlp_layers = 0` is rejected, while `num_layers = 1`
with `num_mlp_layers = 0` and `num_layers = 2` with `num_mlp_layers = 2`
are accepted. -/
theorem layer_count_validation_amended_witness :
    (∃ e, MLP.init thetaZero betaId [] (-1) 2 3 2 = Except.error e) ∧
    (∃ m, MLP.init thetaZero betaId [] 2 2 3 2 = Except.ok m) ∧
    (∃ e, GIN.init thetaZero betaId 3 0 1 1 1 0 false "sum" "sum"
      = Except.error e) ∧
    (∃ m, GIN.init thetaZero betaId 1 0 1 1 1 0 false "sum" "sum"
      = Except.ok m) ∧
    (∃ m, GIN.init thetaZero betaId 2 2 1 1 1 0 false "sum" "sum"
      = Except.ok m) := by
  obtain ⟨a1, _, _, _, _⟩ := layer_count_validation_amended thetaZero
    betaId [] (-1) 1 1 2 3 2 0 false "sum" "sum"
  obtain ⟨_, b2, _, _, _⟩ := layer_count_validation_amended thetaZero
    betaId [] 2 1 1 2 3 2 0 false "sum" "sum"
  obtain ⟨_, _, c3, _, _⟩ := layer_count_validation_amended thetaZero
    betaId [] 1 3 0 1 1 1 0 false "sum" "sum"
  obtain ⟨_, _, _, d4, _⟩ := layer_count_validation_amended thetaZero
    betaId [] 1 1 0 1 1 1 0 false "sum" "sum"
  obtain ⟨_, _, _, _, e5⟩ := layer_count_validation_amended thetaZero
    betaId [] 1 2 2 1 1 1 0 false "sum" "sum"
  exact ⟨a1 (by omega), b2 (by omega), c3 (by omega) (by omega),
    d4 (by omega) (Or.inl rfl),
    e5 (by omega) (by omega) (Or.inl rfl) (Or.inl rfl)⟩

/-! ### C5 (corrected): neighbor-pooling validation -/

/-- Counterexample to C5 as stated: with `num_layers = 1` no `GINConv` is
ever constructed, so the invalid `neighbor_pooling_type` string `foo` is
accepted and construction succeeds. -/
theorem gin_init_accepts_invalid_neighbor_pooling :
    ∃ m, GIN.init thetaZero betaId 1 2 1 1 1 0 false "sum" "foo"
      = Except.ok m :=
  ⟨_, rfl⟩

/-- C5 amended: a `neighbor_pooling_type` outside `sum`/`mean`/`max` is
rejected at construction time exactly when `num_layers >= 2`, because the
check lives in the `GINConv` constructor; when `num_layers <= 1` no
`GINConv` is built and the invalid value is accepted (construction succeeds
whenever the graph-pooling string is valid). -/
theorem neighbor_pooling_validation_amended (θ : LinInit) (β : BNInit)
    (NL NML : ℤ) (i hd o : ℕ) (fd : ℚ) (le : Bool) (gp np : String) :
    (2 ≤ NL → np ≠ "sum" → np ≠ "mean" → np ≠ "max" →
      ∃ e, GIN.init θ β NL NML i hd o fd le gp np = Except.error e) ∧
    (NL ≤ 1 → (gp = "sum" ∨ gp = "mean" ∨ gp = "max") →
      ∃ m, GIN.init θ β NL NML i hd o fd le gp np = Except.ok m) := by
  constructor
  · intro hNL h1 h2 h3
    obtain ⟨n, hn⟩ : ∃ n, (NL - 1).toNat = n + 1 := ⟨(NL - 2).toNat, by omega⟩
    obtain ⟨e, he⟩ := ginLayerBuild_error_of_bad_np θ β NML i hd np le 0
      h1 h2 h3
    refine ⟨e, ?_⟩
    unfold GIN.init
    rw [hn, List.range_succ_eq_map, exList_error_head he]
  · intro hNL hgp
    exact gin_init_ok_of_le_one hNL hgp

/-- Witness for the amended C5 at concrete instances: the string `foo` is
rejected when `num_layers = 2` and accepted when `num_layers = 1`. -/
theorem neighbor_pooling_validation_amended_witness :
    (∃ e, GIN.init thetaZero betaId 2 2 1 1 1 0 false "sum" "foo"
      = Except.error e) ∧
    (∃ m, GIN.init thetaZero betaId 1 2 1 1 1 0 false "mean" "foo"
      = Except.ok m) := by
  obtain ⟨a1, _⟩ := neighbor_pooling_validation_amended thetaZero betaId
    2 2 1 1 1 0 false "sum" "foo"
  obtain ⟨_, b2⟩ := neighbor_pooling_validation_amended thetaZero betaId
    1 2 1 1 1 0 false "mean" "foo"
  exact ⟨a1 (by omega) (by decide) (by decide) (by decide),
    b2 (by omega) (Or.inr (Or.inl rfl))⟩

/-! ### C7: structure of the multi-layer MLP forward pass -/

theorem chainApply_append_single (ps : List (Linear × BatchNorm1d))
    (lb : Linear × BatchNorm1d) (x : Vec) :
    chainApply (ps ++ [lb]) x
      = reluVec (lb.2.forward (lb.1.forward (chainApply ps x))) := by
  induction ps generalizing x with
  | nil => rfl
  | cons q qs ih => rw [List.cons_append, chainApply, chainApply, ih]

theorem zip_get?_eq {α β : Type} :
    ∀ {l1 : List α} {l2 : List β} {i : ℕ} {a : α} {b : β},
      l1.get? i = some a → l2.get? i = some b →
      (l1.zip l2).get? i = some (a, b) := by
  intro l1
  induction l1 with
  | nil => intro l2 i a b h _; simp at h
  | cons x xs ih =>
    intro l2 i a b h1 h2
    cases l2 with
    | nil => simp at h2
    | cons y ys =>
      cases i with
      | zero =>
        simp only [List.get?_cons_zero, Option.some.injEq] at h1 h2
        subst h1; subst h2
        rfl
      | succ j =>
        simp only [List.get?_cons_succ] at h1 h2
        simp only [List.zip_cons_cons, List.get?_cons_succ]
        exact ih h1 h2

theorem hiddenChain_eq_chainApply (m : MLP) (x : Vec) :
    ∀ n, n ≤ m.linears.length → n ≤ m.batch_norms.length →
      m.hiddenChain x n
        = some (chainApply ((m.linears.zip m.batch_norms).take n) x) := by
  intro n
  induction n with
  | zero => intro _ _; rfl
  | succ k ih =>
    intro h1 h2
    have hk1 : k < m.linears.length := by omega
    have hk2 : k < m.batch_norms.length := by omega
    rw [MLP.hiddenChain, ih (by omega) (by omega),
      List.get?_eq_get hk1, List.get?_eq_get hk2]
    have hzip : (m.linears.zip m.batch_norms)[k]?
        = some (m.linears.get ⟨k, hk1⟩, m.batch_norms.get ⟨k, hk2⟩) := by
      rw [← List.get?_eq_getElem?]
      exact zip_get?_eq (List.get?_eq_get hk1) (List.get?_eq_get hk2)
    rw [List.take_succ, hzip, Option.toList_some, chainApply_append_single]

/-- The multi-layer branch of `MLP.forward` is the ReLU/batch-norm chain
over the zipped layer stacks followed by the last linear layer. -/
theorem mlp_forward_multi_eq (m : MLP) (h1 : m.linear_or_not = false)
    (hlb : m.batch_norms.length + 1 = m.linears.length)
    (hnl : m.num_layers.toNat = m.linears.length)
    (hne : m.linears ≠ []) (x : Vec) :
    ∃ lastL, m.linears.getLast? = some lastL ∧
      m.forward x
        = some (lastL.forward (chainApply (m.linears.zip m.batch_norms) x)) := by
  obtain ⟨lastL, hlast⟩ :=
    Option.isSome_iff_exists.mp (List.getLast?_isSome.mpr hne)
  refine ⟨lastL, hlast, ?_⟩
  have hlpos : 0 < m.linears.length := List.length_pos.mpr hne
  have harg : (m.num_layers - 1).toNat = m.batch_norms.length := by omega
  have hchain := hiddenChain_eq_chainApply m x m.batch_norms.length
    (by omega) le_rfl
  have hfull : (m.linears.zip m.batch_norms).take m.batch_norms.length
      = m.linears.zip m.batch_norms := by
    have hz : (m.linears.zip m.batch_norms).length = m.batch_norms.length := by
      rw [List.length_zip]; omega
    rw [← hz, List.take_length]
  rw [hfull] at hchain
  unfold MLP.forward
  rw [if_neg (by rw [h1]; exact Bool.false_ne_true)]
  rw [harg, hchain, hlast]

/-- C7: for `num_layers >= 2`, the MLP applies exactly `num_layers` linear
transforms in sequence — `input_dim → hidden_dim`, then
`hidden_dim → hidden_dim` for the middle layers, then
`hidden_dim → output_dim` — with a batch normalisation followed by a ReLU
after every linear transform except the last, whose output is returned
linearly. -/
theorem mlp_multilayer_forward_structure (θ : LinInit) (β : BNInit)
    (p : List ℕ) (nl : ℤ) (input_dim hidden_dim output_dim : ℕ)
    (hnl : 2 ≤ nl) (m : MLP)
    (hm : MLP.init θ β p nl input_dim hidden_dim output_dim = Except.ok m) :
    m.linears.length = nl.toNat ∧
      m.batch_norms.length = nl.toNat - 1 ∧
      (∀ bn ∈ m.batch_norms, bn.num_features = hidden_dim) ∧
      ∃ first mids lastL, m.linears = first :: (mids ++ [lastL]) ∧
        first.in_features = input_dim ∧ first.out_features = hidden_dim ∧
        (∀ l ∈ mids, l.in_features = hidden_dim ∧
          l.out_features = hidden_dim) ∧
        lastL.in_features = hidden_dim ∧ lastL.out_features = output_dim ∧
        ∀ x, m.forward x
          = some (lastL.forward (chainApply (m.linears.zip m.batch_norms) x)) := by
  have hinv := mlp_init_multi_inv hnl hm
  subst hinv
  have hlinlen :
      (mkLinear θ (p ++ [0]) input_dim hidden_dim ::
        ((List.range (nl - 2).toNat).map
            (fun k => mkLinear θ (p ++ [k + 1]) hidden_dim hidden_dim) ++
          [mkLinear θ (p ++ [(nl - 1).toNat]) hidden_dim output_dim])).length
        = nl.toNat := by
    simp only [List.length_cons, List.length_append, List.length_map,
      List.length_range, List.length_nil]
    omega
  have hbnlen :
      ((List.range (nl - 1).toNat).map
          (fun k => mkBatchNorm β (p ++ [k]) hidden_dim)).length
        = nl.toNat - 1 := by
    simp only [List.length_map, List.length_range]
    omega
  refine ⟨hlinlen, hbnlen, ?_,
    mkLinear θ (p ++ [0]) input_dim hidden_dim,
    (List.range (nl - 2).toNat).map
      (fun k => mkLinear θ (p ++ [k + 1]) hidden_dim hidden_dim),
    mkLinear θ (p ++ [(nl - 1).toNat]) hidden_dim output_dim,
    rfl, rfl, rfl, ?_, rfl, rfl, ?_⟩
  · intro bn hbn
    simp only [List.mem_map, List.mem_range] at hbn
    obtain ⟨k, _, rfl⟩ := hbn
    rfl
  · intro l hl
    simp only [List.mem_map, List.mem_range] at hl
    obtain ⟨k, _, rfl⟩ := hl
    exact ⟨rfl, rfl⟩
  · intro x
    obtain ⟨lastL, hlast, hfwd⟩ := mlp_forward_multi_eq
      { linear_or_not := false, num_layers := nl, output_dim := output_dim,
        linear := none,
        linears :=
          mkLinear θ (p ++ [0]) input_dim hidden_dim ::
            ((List.range (nl - 2).toNat).map
                (fun k => mkLinear θ (p ++ [k + 1]) hidden_dim hidden_dim) ++
              [mkLinear θ (p ++ [(nl - 1).toNat]) hidden_dim output_dim]),
        batch_norms :=
          (List.range (nl - 1).toNat).map
            (fun k => mkBatchNorm β (p ++ [k]) hidden_dim) }
      rfl
      (by
        simp only [List.length_cons, List.length_append, List.length_map,
          List.length_range, List.length_nil]
        omega)
      (by
        simp only [List.length_cons, List.length_append, List.length_map,
          List.length_range, List.length_nil]
        omega)
      (by simp) x
    have hlast2 :
        (mkLinear θ (p ++ [0]) input_dim hidden_dim ::
          ((List.range (nl - 2).toNat).map
              (fun k => mkLinear θ (p ++ [k + 1]) hidden_dim hidden_dim) ++
            [mkLinear θ (p ++ [(nl - 1).toNat]) hidden_dim output_dim])).getLast?
          = some (mkLinear θ (p ++ [(nl - 1).toNat]) hidden_dim output_dim) := by
      rw [← List.cons_append]
      exact List.getLast?_concat _
    rw [hlast2] at hlast
    injection hlast with hlast
    rw [← hlast] at hfwd
    exact hfwd

/-- Witness for C7 at a concrete instance: a three-layer MLP with
dimensions 2 → 3 → 2, its forward pass described by the chain formula. -/
theorem mlp_multilayer_forward_structure_witness :
    ∃ m, MLP.init thetaZero betaId [] 3 2 3 2 = Except.ok m ∧
      m.linears.length = 3 ∧
      m.batch_norms.length = 2 ∧
      ∃ first mids lastL, m.linears = first :: (mids ++ [lastL]) ∧
        first.in_features = 2 ∧ first.out_features = 3 ∧
        lastL.in_features = 3 ∧ lastL.out_features = 2 ∧
        ∀ x, m.forward x
          = some (lastL.forward (chainApply (m.linears.zip m.batch_norms) x)) := by
  obtain ⟨m, hm⟩ : ∃ m, MLP.init thetaZero betaId [] 3 2 3 2 = Except.ok m :=
    ⟨_, rfl⟩
  obtain ⟨h1, h2, _, first, mids, lastL, he, hf1, hf2, _, hl1, hl2, hfwd⟩ :=
    mlp_multilayer_forward_structure thetaZero betaId [] 3 2 3 2
      (by omega) m hm
  exact ⟨m, hm, h1, h2, first, mids, lastL, he, hf1, hf2, hl1, hl2, hfwd⟩

/-! ### C9: layer counts and in-bounds indexing in `GIN.forward` -/

theorem forall₂_mem_right {α β : Type} {R : α → β → Prop} :
    ∀ {l1 : List α} {l2 : List β}, List.Forall₂ R l1 l2 →
      ∀ {b : β}, b ∈ l2 → ∃ a ∈ l1, R a b := by
  intro l1 l2 h
  induction h with
  | nil => intro b hb; simp at hb
  | cons hR _ ih =>
    intro b hb
    rcases List.mem_cons.mp hb with hb | hb
    · subst hb
      exact ⟨_, List.mem_cons_self _ _, hR⟩
    · obtain ⟨a, ha, hr⟩ := ih hb
      exact ⟨a, List.mem_cons_of_mem _ ha, hr⟩

theorem ginLayerBuild_ok_inv {θ : LinInit} {β : BNInit} {NML : ℤ}
    {i hd : ℕ} {np : String} {le : Bool} {layer : ℕ}
    {lb : GINConv × BatchNorm1d}
    (h : ginLayerBuild θ β NML i hd np le layer = Except.ok lb) :
    ∃ mlp t,
      (if layer = 0 then MLP.init θ β [0, layer] NML i hd hd
        else MLP.init θ β [0, layer] NML hd hd hd) = Except.ok mlp ∧
      AggrType.ofString np = Except.ok t ∧
      lb = ({ apply_func :=
                { mlp := mlp, bn := mkBatchNorm β [1, layer] mlp.output_dim },
              aggr := t, eps := 0, learn_eps := le },
            mkBatchNorm β [2, layer] hd) := by
  unfold ginLayerBuild at h
  cases hmlp : (if layer = 0 then MLP.init θ β [0, layer] NML i hd hd
      else MLP.init θ β [0, layer] NML hd hd hd) with
  | error e => rw [hmlp] at h; exact absurd h (by simp)
  | ok mlp =>
    rw [hmlp] at h
    unfold GINConv.init at h
    cases hagg : AggrType.ofString np with
    | error e => rw [hagg] at h; exact absurd h (by simp)
    | ok t =>
      rw [hagg] at h
      injection h with h
      exact ⟨mlp, t, rfl, rfl, h.symm⟩

/-- Structural facts about a successfully constructed MLP that make its
forward pass total. -/
theorem mlp_init_shape {θ : LinInit} {β : BNInit} {p : List ℕ}
    {nml : ℤ} {a b c : ℕ} {mm : MLP}
    (hm : MLP.init θ β p nml a b c = Except.ok mm) :
    (mm.linear_or_not = true ∧ mm.linear.isSome) ∨
      (mm.linear_or_not = false ∧
        mm.batch_norms.length + 1 = mm.linears.length ∧
        mm.num_layers.toNat = mm.linears.length ∧ mm.linears ≠ []) := by
  rcases lt_trichotomy nml 1 with h | h | h
  · rw [mlp_init_error_of_nonpos (by omega)] at hm
    exact absurd hm (by simp)
  · subst h
    rw [mlp_init_one_inv hm]
    left
    exact ⟨rfl, rfl⟩
  · have h2 : 2 ≤ nml := by omega
    rw [mlp_init_multi_inv h2 hm]
    right
    refine ⟨rfl, ?_, ?_, by simp⟩
    · simp only [List.length_cons, List.length_append, List.length_map,
        List.length_range, List.length_nil]
      omega
    · simp only [List.length_cons, List.length_append, List.length_map,
        List.length_range, List.length_nil]
      omega

theorem mlp_forward_total (m : MLP)
    (h : (m.linear_or_not = true ∧ m.linear.isSome) ∨
      (m.linear_or_not = false ∧
        m.batch_norms.length + 1 = m.linears.length ∧
        m.num_layers.toNat = m.linears.length ∧ m.linears ≠ []))
    (x : Vec) : ∃ y, m.forward x = some y := by
  rcases h with ⟨h1, h2⟩ | ⟨h1, h2, h3, h4⟩
  · obtain ⟨l, hl⟩ := Option.isSome_iff_exists.mp h2
    refine ⟨l.forward x, ?_⟩
    unfold MLP.forward
    rw [if_pos h1, hl]
  · obtain ⟨lastL, _, hfwd⟩ := mlp_forward_multi_eq m h1 h2 h3 h4 x
    exact ⟨_, hfwd⟩

theorem applyNodeFunc_total (f : ApplyNodeFunc)
    (hf : ∀ x, ∃ y, f.mlp.forward x = some y) (h : Vec) :
    ∃ y, f.forward h = some y := by
  obtain ⟨y, hy⟩ := hf h
  refine ⟨reluVec (f.bn.forward y), ?_⟩
  unfold ApplyNodeFunc.forward
  rw [hy]

theorem ginconv_forwardGraph_total (c : GINConv)
    (hc : ∀ x, ∃ y, c.apply_func.mlp.forward x = some y)
    (gr : Graph) (h : List Vec) :
    ∃ out, c.forwardGraph gr h = some out ∧ out.length = gr.num_nodes := by
  unfold GINConv.forwardGraph
  obtain ⟨out, hout, hlen, _⟩ := optList_some_of_forall
    (P := fun _ => True)
    (fun v _ => by
      obtain ⟨y, hy⟩ := applyNodeFunc_total c.apply_func hc
        (vecAdd (vecScale (1 + c.eps) (h.getD v []))
          (aggregate c.aggr (h.getD v []).length
            ((gr.adj.getD v []).map (fun u => h.getD u []))))
      exact ⟨y, hy, trivial⟩)
  refine ⟨out, hout, ?_⟩
  rw [hlen, List.length_range]

theorem ginconv_forward_total (c : GINConv)
    (hc : ∀ x, ∃ y, c.apply_func.mlp.forward x = some y)
    (g : BatchedGraph) (h : List (List Vec)) (hB : g.length ≤ h.length) :
    ∃ out, c.forward g h = some out ∧ out.length = g.length := by
  unfold GINConv.forward
  obtain ⟨out, hout, hlen, _⟩ := optList_some_of_forall
    (f := fun q => c.forwardGraph q.1 q.2)
    (P := fun _ => True)
    (l := List.zip g h)
    (fun q _ => by
      obtain ⟨o2, ho, _⟩ := ginconv_forwardGraph_total c hc q.1 q.2
      exact ⟨o2, ho, trivial⟩)
  refine ⟨out, hout, ?_⟩
  rw [hlen, List.length_zip]
  omega

/-- The convolution loop of `GIN.forward` never fails for a model whose
per-layer MLPs are total, and after `n` iterations `hidden_rep` holds
`n + 1` entries, all with one block per member graph. -/
theorem gin_hiddenLoop_total (m : GIN) (g : BatchedGraph)
    (h : List (List Vec))
    (hconv : ∀ c ∈ m.ginlayers, ∀ x, ∃ y, c.apply_func.mlp.forward x = some y)
    (hB : h.length = g.length) :
    ∀ n, n ≤ m.ginlayers.length → n ≤ m.batch_norms.length →
      ∃ rep hcur, m.hiddenLoop g h n = some (rep, hcur) ∧
        rep.length = n + 1 ∧ hcur.length = g.length ∧
        ∀ r ∈ rep, r.length = g.length := by
  intro n
  induction n with
  | zero =>
    intro _ _
    refine ⟨[h], h, rfl, rfl, hB, ?_⟩
    intro r hr
    rcases List.mem_singleton.mp hr with rfl
    exact hB
  | succ k ih =>
    intro h1 h2
    obtain ⟨rep, hcur, hloop, hreplen, hcurlen, hall⟩ :=
      ih (by omega) (by omega)
    have hk1 : k < m.ginlayers.length := by omega
    have hk2 : k < m.batch_norms.length := by omega
    obtain ⟨conv, hconvget⟩ : ∃ c, m.ginlayers.get? k = some c :=
      ⟨_, List.get?_eq_get hk1⟩
    obtain ⟨bn, hbnget⟩ : ∃ b, m.batch_norms.get? k = some b :=
      ⟨_, List.get?_eq_get hk2⟩
    obtain ⟨hconvout, hcout, hcoutlen⟩ := ginconv_forward_total conv
      (hconv conv (List.get?_mem hconvget)) g hcur (by omega)
    refine ⟨rep ++ [hconvout.map
        (fun gf => gf.map (fun v => reluVec (bn.forward v)))],
      hconvout.map (fun gf => gf.map (fun v => reluVec (bn.forward v))),
      ?_, ?_, ?_, ?_⟩
    · rw [GIN.hiddenLoop, hloop, hconvget, hbnget]
      dsimp only
      rw [hcout]
    · simp [hreplen]
    · rw [List.length_map]; exact hcoutlen
    · intro r hr
      rcases List.mem_append.mp hr with hr | hr
      · exact hall r hr
      · rcases List.mem_singleton.mp hr with rfl
        rw [List.length_map]; exact hcoutlen

theorem predsBuild_length (θ : LinInit) (NL : ℤ) (i hd o : ℕ) :
    (predsBuild θ NL i hd o).length = NL.toNat := by
  unfold predsBuild
  simp

/-- Every MLP inside a successfully constructed GIN has a total forward
pass. -/
theorem gin_conv_mlp_total {θ : LinInit} {β : BNInit} {NL NML : ℤ}
    {i hd o : ℕ} {fd : ℚ} {le : Bool} {gp np : String} {m : GIN}
    (hm : GIN.init θ β NL NML i hd o fd le gp np = Except.ok m) :
    ∀ c ∈ m.ginlayers, ∀ x, ∃ y, c.apply_func.mlp.forward x = some y := by
  obtain ⟨layers, pl, hL, hP, hmodel⟩ := gin_init_ok_inv hm
  subst hmodel
  intro c hc x
  simp only [List.mem_map] at hc
  obtain ⟨lb, hlb, rfl⟩ := hc
  obtain ⟨a, _, hok⟩ := forall₂_mem_right (exList_forall₂ hL) hlb
  obtain ⟨mlp, t, hmlp, _, rfl⟩ := ginLayerBuild_ok_inv hok
  by_cases h0 : a = 0
  · rw [if_pos h0] at hmlp
    exact mlp_forward_total _ (mlp_init_shape hmlp) x
  · rw [if_neg h0] at hmlp
    exact mlp_forward_total _ (mlp_init_shape hmlp) x

/-- C9: for every GIN constructed with `num_layers >= 1`, the constructor
creates exactly `num_layers - 1` GINConv layers and exactly `num_layers`
prediction heads, and `GIN.forward` builds a `hidden_rep` list of exactly
`num_layers` entries (the input plus one per GINConv layer), so the
indexing `linears_prediction[i]` in the pooling loop is always in bounds
and the forward pass completes. -/
theorem gin_layer_counts_and_indexing (θ : LinInit) (β : BNInit)
    (NL NML : ℤ) (i hd o : ℕ) (fd : ℚ) (le : Bool) (gp np : String)
    (hNL : 1 ≤ NL) (m : GIN)
    (hm : GIN.init θ β NL NML i hd o fd le gp np = Except.ok m) :
    m.ginlayers.length = (NL - 1).toNat ∧
      m.linears_prediction.length = NL.toNat ∧
      ∀ g h, h.length = g.length →
        ∃ rep hlast,
          m.hiddenLoop g h (m.num_layers - 1).toNat = some (rep, hlast) ∧
            rep.length = NL.toNat ∧
            (∀ j, j < rep.length →
              ∃ lin, m.linears_prediction.get? j = some lin) ∧
            ∃ out, m.forward g h = some out := by
  have hconv := gin_conv_mlp_total hm
  obtain ⟨layers, pl, hL, hP, hmodel⟩ := gin_init_ok_inv hm
  have hlayers : layers.length = (NL - 1).toNat := by
    have := (exList_forall₂ hL).length_eq
    rw [List.length_range] at this
    exact this.symm
  have hgin : m.ginlayers.length = (NL - 1).toNat := by
    rw [hmodel]
    simpa using hlayers
  have hbn : m.batch_norms.length = (NL - 1).toNat := by
    rw [hmodel]
    simpa using hlayers
  have hpreds : m.linears_prediction.length = NL.toNat := by
    rw [hmodel]
    exact predsBuild_length θ NL i hd o
  have hnum : m.num_layers = NL := by rw [hmodel]
  refine ⟨hgin, hpreds, ?_⟩
  intro g h hB
  obtain ⟨rep, hlast, hloop, hreplen, hlastlen, hall⟩ :=
    gin_hiddenLoop_total m g h hconv hB (NL - 1).toNat
      (by omega) (by omega)
  rw [hnum]
  have hreplen2 : rep.length = NL.toNat := by omega
  refine ⟨rep, hlast, hloop, hreplen2, ?_, ?_⟩
  · intro j hj
    have hjp : j < m.linears_prediction.length := by omega
    exact ⟨_, List.get?_eq_get hjp⟩
  · obtain ⟨terms, hterms, _, _⟩ := optList_some_of_forall
      (f := fun j =>
        match rep.get? j, m.linears_prediction.get? j with
        | some hi, some lin =>
          some ((m.pool.forward g hi).map
            (fun pooled => m.drop.forward (lin.forward pooled)))
        | _, _ => none)
      (P := fun _ => True)
      (l := List.range rep.length)
      (fun j hj => by
        have hjlt : j < rep.length := List.mem_range.mp hj
        obtain ⟨hj', hget⟩ : ∃ hh : j < rep.length,
            rep.get? j = some (rep.get ⟨j, hh⟩) :=
          ⟨hjlt, List.get?_eq_get hjlt⟩
        have hjp : j < m.linears_prediction.length := by omega
        have hlin : m.linears_prediction.get? j
            = some (m.linears_prediction.get ⟨j, hjp⟩) :=
          List.get?_eq_get hjp
        refine ⟨(m.pool.forward g (rep.get ⟨j, hj'⟩)).map
            (fun pooled => m.drop.forward
              ((m.linears_prediction.get ⟨j, hjp⟩).forward pooled)),
          ?_, trivial⟩
        dsimp only
        rw [hget, hlin])
    refine ⟨sumScores terms, ?_⟩
    unfold GIN.forward
    rw [hnum, hloop]
    dsimp only
    rw [hterms]

/-- Witness for C9 at a concrete instance: a two-layer GIN on a batch of
one two-node graph. -/
theorem gin_layer_counts_and_indexing_witness :
    ∃ m, GIN.init thetaZero betaId 2 2 1 1 1 0 false "sum" "sum"
        = Except.ok m ∧
      m.ginlayers.length = 1 ∧
      m.linears_prediction.length = 2 ∧
      ∃ rep hlast out,
        m.hiddenLoop [{ num_nodes := 2, adj := [[1], [0]] }] [[[1], [2]]]
            (m.num_layers - 1).toNat = some (rep, hlast) ∧
          rep.length = 2 ∧
          m.forward [{ num_nodes := 2, adj := [[1], [0]] }] [[[1], [2]]]
            = some out := by
  obtain ⟨m, hm⟩ : ∃ m, GIN.init thetaZero betaId 2 2 1 1 1 0 false
      "sum" "sum" = Except.ok m := ⟨_, rfl⟩
  obtain ⟨h1, h2, h3⟩ := gin_layer_counts_and_indexing thetaZero betaId
    2 2 1 1 1 0 false "sum" "sum" (by omega) m hm
  obtain ⟨rep, hlast, hloop, hreplen, _, out, hout⟩ :=
    h3 [{ num_nodes := 2, adj := [[1], [0]] }] [[[1], [2]]] rfl
  exact ⟨m, hm, h1, h2, rep, hlast, out, hloop, hreplen, hout⟩

/-! ### C1: output shape of `GIN.forward` -/

theorem vecAdd_length (a b : Vec) :
    (vecAdd a b).length = min a.length b.length := by
  unfold vecAdd
  exact List.length_zipWith _ _ _

theorem Linear.forward_length (l : Linear)
    (h1 : l.weight.length = l.out_features)
    (h2 : l.bias.length = l.out_features) (x : Vec) :
    (l.forward x).length = l.out_features := by
  unfold Linear.forward
  rw [List.length_zipWith, List.length_map, h1, h2, min_self]

theorem mem_zipWith {α β γ : Type} {f : α → β → γ} :
    ∀ {l1 : List α} {l2 : List β} {c : γ}, c ∈ List.zipWith f l1 l2 →
      ∃ a b, a ∈ l1 ∧ b ∈ l2 ∧ c = f a b := by
  intro l1
  induction l1 with
  | nil => intro l2 c hc; simp at hc
  | cons x xs ih =>
    intro l2 c hc
    cases l2 with
    | nil => simp at hc
    | cons y ys =>
      rw [List.zipWith_cons_cons] at hc
      rcases List.mem_cons.mp hc with hc | hc
      · exact ⟨x, y, List.mem_cons_self _ _, List.mem_cons_self _ _, hc⟩
      · obtain ⟨a, b, ha, hb, rfl⟩ := ih hc
        exact ⟨a, b, List.mem_cons_of_mem _ ha,
          List.mem_cons_of_mem _ hb, rfl⟩

theorem foldl_matAdd_shape (B d : ℕ) :
    ∀ (ts : List (List Vec)) (acc : List Vec),
      acc.length = B → (∀ v ∈ acc, v.length = d) →
      (∀ t ∈ ts, t.length = B ∧ ∀ v ∈ t, v.length = d) →
      (ts.foldl matAdd acc).length = B ∧
        ∀ v ∈ ts.foldl matAdd acc, v.length = d := by
  intro ts
  induction ts with
  | nil => intro acc h1 h2 _; exact ⟨h1, h2⟩
  | cons t ts ih =>
    intro acc h1 h2 h3
    obtain ⟨ht1, ht2⟩ := h3 t (List.mem_cons_self _ _)
    rw [List.foldl_cons]
    apply ih
    · unfold matAdd
      rw [List.length_zipWith]
      omega
    · intro v hv
      unfold matAdd at hv
      obtain ⟨a, b, ha, hb, rfl⟩ := mem_zipWith hv
      rw [vecAdd_length, h2 a ha, ht2 b hb, min_self]
    · intro u hu
      exact h3 u (List.mem_cons_of_mem _ hu)

theorem sumScores_shape {B d : ℕ} {ts : List (List Vec)} (hne : ts ≠ [])
    (h : ∀ t ∈ ts, t.length = B ∧ ∀ v ∈ t, v.length = d) :
    (sumScores ts).length = B ∧ ∀ v ∈ sumScores ts, v.length = d := by
  cases ts with
  | nil => exact absurd rfl hne
  | cons t rest =>
    obtain ⟨h1, h2⟩ := h t (List.mem_cons_self _ _)
    exact foldl_matAdd_shape B d rest t h1 h2
      (fun u hu => h u (List.mem_cons_of_mem _ hu))

/-- Every prediction head built by `GIN.__init__` has weight and bias of
the declared output width. -/
theorem predsBuild_get_out {θ : LinInit} (hθ : LinInit.wf θ) (NL : ℤ)
    (i hd o : ℕ) {j : ℕ} {lin : Linear}
    (hj : (predsBuild θ NL i hd o).get? j = some lin) :
    lin.weight.length = o ∧ lin.bias.length = o ∧ lin.out_features = o := by
  unfold predsBuild at hj
  rw [List.get?_map] at hj
  cases hr : (List.range NL.toNat).get? j with
  | none => rw [hr] at hj; simp at hj
  | some k =>
    rw [hr] at hj
    simp only [Option.map_some'] at hj
    injection hj with hj
    subst hj
    by_cases hk : k = 0
    · subst hk
      simp only [if_pos rfl]
      exact ⟨(hθ [3, 0] i o).1, (hθ [3, 0] i o).2.2, rfl⟩
    · rw [if_neg hk]
      exact ⟨(hθ [3, k] hd o).1, (hθ [3, k] hd o).2.2, rfl⟩

/-- C1: for every validly constructed GIN (positive `num_layers`, as the
spec requires for validity) and every valid batched-graph input with `B`
member graphs, `GIN.forward` returns a score tensor of shape
`(B, output_dim)`. -/
theorem gin_forward_output_shape (θ : LinInit) (β : BNInit)
    (hθ : LinInit.wf θ) (hβ : BNInit.wf β)
    (NL NML : ℤ) (i hd o : ℕ) (fd : ℚ) (le : Bool) (gp np : String)
    (hNL : 1 ≤ NL) (m : GIN)
    (hm : GIN.init θ β NL NML i hd o fd le gp np = Except.ok m)
    (g : BatchedGraph) (h : List (List Vec))
    (hB : h.length = g.length)
    (hwf : ∀ gr ∈ g, gr.wf ∧ 1 ≤ gr.num_nodes)
    (hfeat : List.Forall₂ (fun gr hk => hk.length = gr.num_nodes) g h)
    (hdim : ∀ hk ∈ h, ∀ v ∈ hk, v.length = i) :
    ∃ out, m.forward g h = some out ∧ out.length = g.length ∧
      ∀ v ∈ out, v.length = o := by
  have hconv := gin_conv_mlp_total hm
  obtain ⟨layers, pl, hL, hP, hmodel⟩ := gin_init_ok_inv hm
  have hlayers : layers.length = (NL - 1).toNat := by
    have h2 := (exList_forall₂ hL).length_eq
    rw [List.length_range] at h2
    exact h2.symm
  have hgin : m.ginlayers.length = (NL - 1).toNat := by
    rw [hmodel]; simpa using hlayers
  have hbn : m.batch_norms.length = (NL - 1).toNat := by
    rw [hmodel]; simpa using hlayers
  have hpreds : m.linears_prediction.length = NL.toNat := by
    rw [hmodel]; exact predsBuild_length θ NL i hd o
  have hnum : m.num_layers = NL := by rw [hmodel]
  have hpredseq : m.linears_prediction = predsBuild θ NL i hd o := by
    rw [hmodel]
  have hdrop : ∀ v : Vec, m.drop.forward v = v := fun v => rfl
  obtain ⟨rep, hlast, hloop, hreplen, hlastlen, hall⟩ :=
    gin_hiddenLoop_total m g h hconv hB (NL - 1).toNat (by omega) (by omega)
  have hreplen2 : rep.length = NL.toNat := by omega
  obtain ⟨terms, hterms, htermslen, htermsP⟩ := optList_some_of_forall
    (f := fun j =>
      match rep.get? j, m.linears_prediction.get? j with
      | some hi, some lin =>
        some ((m.pool.forward g hi).map
          (fun pooled => m.drop.forward (lin.forward pooled)))
      | _, _ => none)
    (P := fun t => t.length = g.length ∧ ∀ v ∈ t, v.length = o)
    (l := List.range rep.length)
    (fun j hj => by
      have hjlt : j < rep.length := List.mem_range.mp hj
      obtain ⟨hj', hget⟩ : ∃ hh : j < rep.length,
          rep.get? j = some (rep.get ⟨j, hh⟩) :=
        ⟨hjlt, List.get?_eq_get hjlt⟩
      have hjp : j < m.linears_prediction.length := by omega
      have hlin : m.linears_prediction.get? j
          = some (m.linears_prediction.get ⟨j, hjp⟩) :=
        List.get?_eq_get hjp
      have hlin2 : (predsBuild θ NL i hd o).get? j
          = some (m.linears_prediction.get ⟨j, hjp⟩) := by
        rw [← hpredseq]; exact hlin
      obtain ⟨hw1, hw2, hw3⟩ := predsBuild_get_out hθ NL i hd o hlin2
      refine ⟨(m.pool.forward g (rep.get ⟨j, hj'⟩)).map
          (fun pooled => m.drop.forward
            ((m.linears_prediction.get ⟨j, hjp⟩).forward pooled)),
        ?_, ?_, ?_⟩
      · dsimp only
        rw [hget, hlin]
      · rw [List.length_map]
        unfold Pooling.forward
        rw [List.length_map]
        exact hall _ (List.get?_mem hget)
      · intro v hv
        simp only [List.mem_map] at hv
        obtain ⟨pooled, _, rfl⟩ := hv
        rw [hdrop]
        rw [Linear.forward_length _ (by rw [hw1, hw3]) (by rw [hw2, hw3])]
        exact hw3)
  have htermsne : terms ≠ [] := by
    intro he
    rw [he, List.length_nil, List.length_range] at htermslen
    omega
  obtain ⟨hsum1, hsum2⟩ := sumScores_shape htermsne htermsP
  refine ⟨sumScores terms, ?_, hsum1, hsum2⟩
  unfold GIN.forward
  rw [hnum, hloop]
  dsimp only
  rw [hterms]

/-- Witness for C1 at a concrete instance: a two-layer GIN on a batch of
one two-node graph with one-dimensional features and `output_dim = 1`. -/
theorem gin_forward_output_shape_witness :
    ∃ m out, GIN.init thetaZero betaId 2 2 1 1 1 0 false "sum" "sum"
        = Except.ok m ∧
      m.forward [{ num_nodes := 2, adj := [[1], [0]] }] [[[1], [2]]]
        = some out ∧
      out.length = 1 ∧ ∀ v ∈ out, v.length = 1 := by
  obtain ⟨m, hm⟩ : ∃ m, GIN.init thetaZero betaId 2 2 1 1 1 0 false
      "sum" "sum" = Except.ok m := ⟨_, rfl⟩
  obtain ⟨out, hout, hlen, hdim⟩ := gin_forward_output_shape thetaZero
    betaId thetaZero_wf betaId_wf 2 2 1 1 1 0 false "sum" "sum"
    (by omega) m hm [{ num_nodes := 2, adj := [[1], [0]] }] [[[1], [2]]]
    rfl
    (by
      intro gr hgr
      rcases List.mem_singleton.mp hgr with rfl
      exact ⟨⟨rfl, by decide⟩, by decide⟩)
    (List.Forall₂.cons rfl List.Forall₂.nil)
    (by decide)
  exact ⟨m, out, hm, hout, hlen, hdim⟩

/-! ### C2: `GIN.forward` as a sum of per-layer pooled predictions -/

theorem hiddenLoop_to_hiddenRep (m : GIN) (g : BatchedGraph)
    (h : List (List Vec)) :
    ∀ n rep hcur, m.hiddenLoop g h n = some (rep, hcur) →
      rep.length = n + 1 ∧
        (∀ j, j < rep.length → m.hiddenRep g h j = rep.get? j) ∧
        rep.get? n = some hcur := by
  intro n
  induction n with
  | zero =>
    intro rep hcur hl
    rw [GIN.hiddenLoop] at hl
    injection hl with hl
    have h1 : [h] = rep := congrArg Prod.fst hl
    have h2 : h = hcur := congrArg Prod.snd hl
    subst h1
    subst h2
    refine ⟨rfl, ?_, rfl⟩
    intro j hj
    have hj0 : j = 0 := by
      simp only [List.length_singleton] at hj
      omega
    subst hj0
    rfl
  | succ k ih =>
    intro rep hcur hl
    rw [GIN.hiddenLoop] at hl
    cases hk : m.hiddenLoop g h k with
    | none => rw [hk] at hl; exact absurd hl (by simp)
    | some pr =>
      obtain ⟨rep0, hcur0⟩ := pr
      rw [hk] at hl
      cases hcg : m.ginlayers.get? k with
      | none => rw [hcg] at hl; exact absurd hl (by simp)
      | some conv =>
        rw [hcg] at hl
        cases hbg : m.batch_norms.get? k with
        | none => rw [hbg] at hl; exact absurd hl (by simp)
        | some bn =>
          rw [hbg] at hl
          dsimp only at hl
          cases hcf : conv.forward g hcur0 with
          | none => rw [hcf] at hl; exact absurd hl (by simp)
          | some hco =>
            rw [hcf] at hl
            dsimp only at hl
            injection hl with hl
            have h1 : rep0 ++ [hco.map
                (fun gf => gf.map (fun v => reluVec (bn.forward v)))] = rep :=
              congrArg Prod.fst hl
            have h2 : hco.map
                (fun gf => gf.map (fun v => reluVec (bn.forward v))) = hcur :=
              congrArg Prod.snd hl
            subst h1
            obtain ⟨hlen0, hrel0, hlast0⟩ := ih rep0 hcur0 hk
            have hreck : m.hiddenRep g h (k + 1) = some hcur := by
              rw [GIN.hiddenRep]
              have hrk : m.hiddenRep g h k = some hcur0 := by
                rw [hrel0 k (by omega)]
                exact hlast0
              rw [hrk, hcg, hbg]
              dsimp only
              rw [hcf]
              dsimp only
              rw [h2]
            have hget1 : (rep0 ++ [hco.map
                (fun gf => gf.map (fun v => reluVec (bn.forward v)))]).get? (k + 1)
                = some hcur := by
              rw [List.get?_append_right (by omega)]
              have hidx : k + 1 - rep0.length = 0 := by omega
              rw [hidx, List.get?_cons_zero, h2]
            refine ⟨by simp [hlen0], ?_, hget1⟩
            intro j hj
            simp only [List.length_append, List.length_singleton] at hj
            rcases Nat.lt_or_ge j rep0.length with hjl | hjr
            · rw [List.get?_append hjl]
              exact hrel0 j hjl
            · have hj2 : j = k + 1 := by omega
              subst hj2
              rw [hget1, hreck]

/-- C2: `GIN.forward` returns the sum, over every layer representation
`j` in `0 .. num_layers - 1` (layer 0 being the raw input features), of
dropout applied to `linears_prediction[j]` applied (row-wise) to the
graph-pooled representation `pool(g, h_j)`; there is exactly one linear
prediction head per layer, and head `j` is applied to layer `j`. -/
theorem gin_forward_layerwise_score_sum (θ : LinInit) (β : BNInit)
    (NL NML : ℤ) (i hd o : ℕ) (fd : ℚ) (le : Bool) (gp np : String)
    (hNL : 1 ≤ NL) (m : GIN)
    (hm : GIN.init θ β NL NML i hd o fd le gp np = Except.ok m)
    (g : BatchedGraph) (h : List (List Vec)) (hB : h.length = g.length) :
    m.linears_prediction.length = m.num_layers.toNat ∧
      ∃ terms : List (List Vec), terms.length = m.num_layers.toNat ∧
        (∀ j, j < terms.length →
          ∃ hrep lin, m.hiddenRep g h j = some hrep ∧
            m.linears_prediction.get? j = some lin ∧
            terms.get? j = some ((m.pool.forward g hrep).map
              (fun pooled => m.drop.forward (lin.forward pooled)))) ∧
        m.forward g h = some (sumScores terms) := by
  have hconv := gin_conv_mlp_total hm
  obtain ⟨layers, pl, hL, hP, hmodel⟩ := gin_init_ok_inv hm
  have hlayers : layers.length = (NL - 1).toNat := by
    have h2 := (exList_forall₂ hL).length_eq
    rw [List.length_range] at h2
    exact h2.symm
  have hgin : m.ginlayers.length = (NL - 1).toNat := by
    rw [hmodel]; simpa using hlayers
  have hbn : m.batch_norms.length = (NL - 1).toNat := by
    rw [hmodel]; simpa using hlayers
  have hpreds : m.linears_prediction.length = NL.toNat := by
    rw [hmodel]; exact predsBuild_length θ NL i hd o
  have hnum : m.num_layers = NL := by rw [hmodel]
  obtain ⟨rep, hlast, hloop, hreplen, hlastlen, hall⟩ :=
    gin_hiddenLoop_total m g h hconv hB (NL - 1).toNat (by omega) (by omega)
  have hreplen2 : rep.length = NL.toNat := by omega
  obtain ⟨hlen0, hrel0, _⟩ := hiddenLoop_to_hiddenRep m g h _ rep hlast hloop
  obtain ⟨terms, hterms, htermslen, _⟩ := optList_some_of_forall
    (f := fun j =>
      match rep.get? j, m.linears_prediction.get? j with
      | some hi, some lin =>
        some ((m.pool.forward g hi).map
          (fun pooled => m.drop.forward (lin.forward pooled)))
      | _, _ => none)
    (P := fun _ => True)
    (l := List.range rep.length)
    (fun j hj => by
      have hjlt : j < rep.length := List.mem_range.mp hj
      obtain ⟨hj', hget⟩ : ∃ hh : j < rep.length,
          rep.get? j = some (rep.get ⟨j, hh⟩) :=
        ⟨hjlt, List.get?_eq_get hjlt⟩
      have hjp : j < m.linears_prediction.length := by omega
      have hlin : m.linears_prediction.get? j
          = some (m.linears_prediction.get ⟨j, hjp⟩) :=
        List.get?_eq_get hjp
      refine ⟨(m.pool.forward g (rep.get ⟨j, hj'⟩)).map
          (fun pooled => m.drop.forward
            ((m.linears_prediction.get ⟨j, hjp⟩).forward pooled)),
        ?_, trivial⟩
      dsimp only
      rw [hget, hlin])
  have hF := optList_forall₂ hterms
  have htlen : terms.length = NL.toNat := by
    rw [htermslen, List.length_range]
    exact hreplen2
  rw [hnum]
  refine ⟨hpreds, terms, htlen, ?_, ?_⟩
  · intro j hj
    have hjr : j < rep.length := by omega
    obtain ⟨hj', hget⟩ : ∃ hh : j < rep.length,
        rep.get? j = some (rep.get ⟨j, hh⟩) :=
      ⟨hjr, List.get?_eq_get hjr⟩
    have hjp : j < m.linears_prediction.length := by omega
    have hlin : m.linears_prediction.get? j
        = some (m.linears_prediction.get ⟨j, hjp⟩) :=
      List.get?_eq_get hjp
    have htj : terms.get? j = some (terms.get ⟨j, hj⟩) :=
      List.get?_eq_get hj
    have hrj : (List.range rep.length).get? j = some j :=
      List.get?_range hjr
    have happ := forall₂_get? hF hrj htj
    rw [hget, hlin] at happ
    dsimp only at happ
    refine ⟨rep.get ⟨j, hj'⟩, m.linears_prediction.get ⟨j, hjp⟩, ?_, hlin, ?_⟩
    · rw [hrel0 j hjr]
      exact hget
    · rw [htj, ← happ]
  · unfold GIN.forward
    rw [hnum, hloop]
    dsimp only
    rw [hterms]

/-- Witness for C2 at a concrete instance: a two-layer GIN on a batch of
one two-node graph; the forward pass equals the sum of the two per-layer
pooled prediction terms. -/
theorem gin_forward_layerwise_score_sum_witness :
    ∃ m, GIN.init thetaZero betaId 2 2 1 1 1 0 false "sum" "sum"
        = Except.ok m ∧
      m.linears_prediction.length = 2 ∧
      ∃ terms : List (List Vec), terms.length = 2 ∧
        (∀ j, j < terms.length →
          ∃ hrep lin,
            m.hiddenRep [{ num_nodes := 2, adj := [[1], [0]] }] [[[1], [2]]] j
                = some hrep ∧
              m.linears_prediction.get? j = some lin ∧
              terms.get? j = some ((m.pool.forward
                  [{ num_nodes := 2, adj := [[1], [0]] }] hrep).map
                (fun pooled => m.drop.forward (lin.forward pooled)))) ∧
        m.forward [{ num_nodes := 2, adj := [[1], [0]] }] [[[1], [2]]]
          = some (sumScores terms) := by
  obtain ⟨m, hm⟩ : ∃ m, GIN.init thetaZero betaId 2 2 1 1 1 0 false
      "sum" "sum" = Except.ok m := ⟨_, rfl⟩
  have hnum : m.num_layers = 2 := by
    obtain ⟨layers, pl, _, _, hmodel⟩ := gin_init_ok_inv hm
    rw [hmodel]
  obtain ⟨h1, terms, h2, h3, h4⟩ := gin_forward_layerwise_score_sum
    thetaZero betaId 2 2 1 1 1 0 false "sum" "sum" (by omega) m hm
    [{ num_nodes := 2, adj := [[1], [0]] }] [[[1], [2]]] rfl
  rw [hnum] at h1 h2
  exact ⟨m, hm, h1, terms, h2, h3, h4⟩

end VGADC
